import Mathlib

/-!
Verification of the natural-language specification of the `vscode-gitlens`
source file `src/git/parsers/remoteParser.ts` (which contains two modules:
the `GitRemoteParser` remote-listing parser and the `GitProvider`
blame/codec/cache engine) against a shallow embedding of that code.

Conventions of the embedding:
* JS strings that may be `undefined` are modelled as `Option String`
  (`none` = `undefined`); JS `a || b` on such values is `jsOr`.
* JS `Map` (which preserves insertion order, `set` replacing in place)
  is modelled as an association list `List (String × α)` with `aget`,
  `aset` and `aupdate` mirroring `get`, `set` and in-place mutation of
  a value obtained from `get`.
* The JS regexes are embedded as terms of a small regex AST `Rx` whose
  backtracking matcher `Rx.runs` enumerates candidate matches in exactly
  the JS priority order (alternation left first, lazy star shortest
  first, greedy star longest first, greedy `?` present first).  Every
  star in the two source regexes is over a single character class, so
  star is modelled by the class-star constructors `starL`/`starG`.
* `.` in a JS regex (no `s` flag) matches any character except a line
  terminator; `$`/`^` with the `m` flag are handled by splitting the
  input into lines, which is what the `gm`-loops in the source iterate
  over.  Thrown JS exceptions are modelled with `Except`.
-/

/-- JS whitespace (the `\s` class): ECMAScript WhiteSpace ∪ LineTerminator. -/
def jsWs (c : Char) : Bool :=
  [9, 10, 11, 12, 13, 32, 0xA0, 0x1680, 0x2000, 0x2001, 0x2002, 0x2003, 0x2004,
   0x2005, 0x2006, 0x2007, 0x2008, 0x2009, 0x200A, 0x2028, 0x2029, 0x202F,
   0x205F, 0x3000, 0xFEFF].contains c.toNat

/-- `.` in a JS regex without the `s` flag: any char but a line terminator. -/
def notNl (c : Char) : Bool :=
  !([10, 13, 0x2028, 0x2029].contains c.toNat)

/-- Captured groups of a regex match: group number ↦ captured text. -/
def Caps := List (Nat × String)

/-- Regex AST.  Stars only occur applied to a character class in the two
source regexes, so the star constructors carry the class directly. -/
inductive Rx where
  | eps
  | ch (c : Char)
  | cls (p : Char → Bool)
  | seq (a b : Rx)
  | alt (a b : Rx)
  | starL (p : Char → Bool)
  | starG (p : Char → Bool)
  | opt (a : Rx)
  | group (n : Nat) (a : Rx)
  | look (a : Rx)

/-- Literal string as a regex. -/
def rxStr (s : String) : Rx :=
  s.data.foldr (fun c r => Rx.seq (Rx.ch c) r) Rx.eps

/-- Suffixes of `l` reachable by consuming a prefix of `p`-characters,
shortest-consumed first (the lazy-star candidate order). -/
def lazySuffixes (p : Char → Bool) : List Char → List (List Char)
  | [] => [[]]
  | c :: rest => (c :: rest) :: (if p c then lazySuffixes p rest else [])

/-- Record a capture: group `n` captured the part of `l` consumed before `r`. -/
def capSet (cs : Caps) (n : Nat) (l r : List Char) : Caps :=
  (n, String.mk (l.take (l.length - r.length))) :: cs.filter (fun e => e.1 ≠ n)

/-- Captured text of group `n` (JS `match[n]`, `none` = `undefined`). -/
def capGet (cs : Caps) (n : Nat) : Option String :=
  (cs.find? (fun e => e.1 = n)).map (fun e => e.2)

/-- All ways a regex can match a prefix of the input, in JS backtracking
priority order; each result is (remaining input, captures). -/
def Rx.runs : Rx → List Char → Caps → List (List Char × Caps)
  | .eps, l, cs => [(l, cs)]
  | .ch c, l, cs =>
      match l with
      | [] => []
      | x :: r => if x = c then [(r, cs)] else []
  | .cls p, l, cs =>
      match l with
      | [] => []
      | x :: r => if p x then [(r, cs)] else []
  | .seq a b, l, cs => (Rx.runs a l cs).flatMap (fun pr => Rx.runs b pr.1 pr.2)
  | .alt a b, l, cs => Rx.runs a l cs ++ Rx.runs b l cs
  | .starL p, l, cs => (lazySuffixes p l).map (fun r => (r, cs))
  | .starG p, l, cs => (lazySuffixes p l).reverse.map (fun r => (r, cs))
  | .opt a, l, cs => Rx.runs a l cs ++ [(l, cs)]
  | .group n a, l, cs =>
      (Rx.runs a l cs).map (fun pr => (pr.1, capSet pr.2 n l pr.1))
  | .look a, l, cs =>
      match Rx.runs a l cs with
      | [] => []
      | pr :: _ => [(l, pr.2)]

/-- Anchored (`^ … $`) match of a regex against a whole string: the first
backtracking result that consumes the entire input, as JS `exec` finds. -/
def rxMatch (r : Rx) (s : String) : Option Caps :=
  ((Rx.runs r s.data []).filter (fun pr => pr.1 = ([] : List Char))).head?.map
    (fun pr => pr.2)

/-- JS `a || b` for possibly-`undefined` strings (`""` is falsy). -/
def jsOr : Option String → Option String → Option String
  | some s, b => if s = "" then b else some s
  | none, b => b

/-- JS template-literal stringification of a possibly-`undefined` string. -/
def jsTemplate : Option String → String
  | some s => s
  | none => "undefined"

/-- JS `a.endsWith(b)` (kernel-evaluable list version). -/
def jsEndsWith (s suff : String) : Bool :=
  suff.data.isSuffixOf s.data

/-- Drop the last `n` characters of a string. -/
def strDropRight (s : String) (n : Nat) : String :=
  String.mk (s.data.take (s.data.length - n))

/-- `path.replace(/\.git\/?$/, '')`. -/
def stripGitSuffix (path : String) : String :=
  if jsEndsWith path ".git/" then strDropRight path 5
  else if jsEndsWith path ".git" then strDropRight path 4
  else path

/-- The source `urlRegex`:
`^(?:(git:\/\/)(.*?)\/|(https?:\/\/)(?:.*?@)?(.*?)\/|git@(.*):|(ssh:\/\/)(?:.*@)?(.*?)(?::.*?)?(?:\/|(?=~))|(?:.*?@)(.*?):)(.*)$`
with identical group numbering. -/
def urlRx : Rx :=
  Rx.seq
    (Rx.alt
      (Rx.seq (Rx.group 1 (rxStr "git://"))
        (Rx.seq (Rx.group 2 (Rx.starL notNl)) (Rx.ch '/')))
      (Rx.alt
        (Rx.seq
          (Rx.group 3 (Rx.seq (rxStr "http")
            (Rx.seq (Rx.opt (Rx.ch 's')) (rxStr "://"))))
          (Rx.seq (Rx.opt (Rx.seq (Rx.starL notNl) (Rx.ch '@')))
            (Rx.seq (Rx.group 4 (Rx.starL notNl)) (Rx.ch '/'))))
        (Rx.alt
          (Rx.seq (rxStr "git@")
            (Rx.seq (Rx.group 5 (Rx.starG notNl)) (Rx.ch ':')))
          (Rx.alt
            (Rx.seq (Rx.group 6 (rxStr "ssh://"))
              (Rx.seq (Rx.opt (Rx.seq (Rx.starG notNl) (Rx.ch '@')))
                (Rx.seq (Rx.group 7 (Rx.starL notNl))
                  (Rx.seq (Rx.opt (Rx.seq (Rx.ch ':') (Rx.starL notNl)))
                    (Rx.alt (Rx.ch '/') (Rx.look (Rx.ch '~')))))))
            (Rx.seq (Rx.seq (Rx.starL notNl) (Rx.ch '@'))
              (Rx.seq (Rx.group 8 (Rx.starL notNl)) (Rx.ch ':')))))))
    (Rx.group 9 (Rx.starG notNl))

/-- `GitRemoteParser.parseGitUrl`.  Returns the JS triple
`[match[1]||match[3]||match[6], match[2]||match[4]||match[5]||match[7]||match[8],
match[9].replace(/\.git\/?$/, '')]`; the first two components can be
`undefined` (`none`) when none of their groups participated, while a failed
match yields the three defined empty strings of the source. -/
def GitRemoteParser.parseGitUrl (url : String) :
    Option String × Option String × String :=
  match rxMatch urlRx url with
  | none => (some "", some "", "")
  | some caps =>
      (jsOr (capGet caps 1) (jsOr (capGet caps 3) (capGet caps 6)),
       jsOr (capGet caps 2) (jsOr (capGet caps 4) (jsOr (capGet caps 5)
         (jsOr (capGet caps 7) (capGet caps 8)))),
       stripGitSuffix ((capGet caps 9).getD ""))

/-- Split a string at line terminators (the lines that the `gm`-anchored
regex loops of the source iterate over; the inputs at hand use `\n`). -/
def splitLinesAux (cur : List Char) : List Char → List String
  | [] => [String.mk cur.reverse]
  | c :: rest =>
      if c = '\n' then String.mk cur.reverse :: splitLinesAux [] rest
      else splitLinesAux (c :: cur) rest

/-- All lines of a string. -/
def splitLines (s : String) : List String :=
  splitLinesAux [] s.data

/-- The source `remoteRegex`: `^(.*)\t(.*)\s\((.*)\)$` (per line, `gm`). -/
def remoteRx : Rx :=
  Rx.seq (Rx.group 1 (Rx.starG notNl))
    (Rx.seq (Rx.ch '\t')
      (Rx.seq (Rx.group 2 (Rx.starG notNl))
        (Rx.seq (Rx.cls jsWs)
          (Rx.seq (Rx.ch '(')
            (Rx.seq (Rx.group 3 (Rx.starG notNl)) (Rx.ch ')'))))))

/-- A resolved remote provider, the result of the external
`providerFactory` collaborator (an interface parameter of `parse`). -/
structure RemoteProvider where
  domain : String
  path : String
deriving DecidableEq

/-- One `{ url, type }` entry of a remote's `types` sequence. -/
structure GitRemoteUrlType where
  url : String
  type : String
deriving DecidableEq

/-- Modelled from the spec: the `GitRemote` record class lives in `git.ts`,
which is not part of the sources; §3 of the spec gives its shape
`{repoPath, uniquenessKey = "<domain>/<path>", name, scheme, domain, path,
provider, types}`, matching the constructor-call order at the `parse` call
site.  `scheme`/`domain` may be `undefined` (the url matcher can yield
`undefined` for them); `path` and the rest are always defined. -/
structure GitRemote where
  repoPath : String
  uniquenessKey : String
  name : String
  scheme : Option String
  domain : Option String
  path : String
  provider : Option RemoteProvider
  types : List GitRemoteUrlType
deriving DecidableEq

/-- The body of the `do … while` loop of `GitRemoteParser.parse` for one
`remoteRegex` match, acting on the `remotes` accumulator.  The source also
keeps a `groups` object keyed by `uniqueness` whose values alias the
objects stored in `remotes`; the aliasing (`remote.types.push`) is
modelled by updating the unique list entry with that key in place. -/
def GitRemoteParser.parseStep (repoPath : String)
    (providerFactory : Option String → String → Option RemoteProvider)
    (remotes : List GitRemote) (caps : Caps) : List GitRemote :=
  let url := (capGet caps 2).getD ""
  let parsed := GitRemoteParser.parseGitUrl url
  let scheme := parsed.1
  let domain := parsed.2.1
  let path := parsed.2.2
  let uniqueness := jsTemplate domain ++ "/" ++ path
  match remotes.find? (fun r => r.uniquenessKey = uniqueness) with
  | some _ =>
      remotes.map (fun r =>
        if r.uniquenessKey = uniqueness then
          { r with types := r.types ++ [⟨url, (capGet caps 3).getD ""⟩] }
        else r)
  | none =>
      let provider := providerFactory domain path
      remotes ++ [{ repoPath := repoPath,
                    uniquenessKey := uniqueness,
                    name := (capGet caps 1).getD "",
                    scheme := scheme,
                    domain := match provider with
                              | some p => some p.domain
                              | none => domain,
                    path := match provider with
                            | some p => p.path
                            | none => path,
                    provider := provider,
                    types := [⟨url, (capGet caps 3).getD ""⟩] }]

/-- `GitRemoteParser.parse`: scan the remote-listing text line by line with
`remoteRegex` and fold the matches through `parseStep`.  Groups 1–3 of a
successful `remoteRegex` match always participate, so their `getD ""`
defaults in `parseStep` are never exercised. -/
def GitRemoteParser.parse (data repoPath : String)
    (providerFactory : Option String → String → Option RemoteProvider) :
    List GitRemote :=
  if data = "" then []
  else
    let remotes := ((splitLines data).filterMap (rxMatch remoteRx)).foldl
      (GitRemoteParser.parseStep repoPath providerFactory) []
    if remotes.isEmpty then [] else remotes

/-! ### Association-list model of JS `Map` -/

/-- `Map.get`: value of the first (unique) entry with the given key. -/
def aget {α : Type} (k : String) : List (String × α) → Option α
  | [] => none
  | e :: rest => if e.1 = k then some e.2 else aget k rest

/-- `Map.set`: replace the entry in place, or append a new one. -/
def aset {α : Type} (k : String) (v : α) : List (String × α) → List (String × α)
  | [] => [(k, v)]
  | e :: rest => if e.1 = k then (k, v) :: rest else e :: aset k v rest

/-- In-place mutation of the object held under `k` (JS `map.get(k).f = …`). -/
def aupdate {α : Type} (k : String) (f : α → α) :
    List (String × α) → List (String × α)
  | [] => []
  | e :: rest => if e.1 = k then (e.1, f e.2) :: rest else e :: aupdate k f rest

/-- The values of a JS `Map` in iteration (insertion) order. -/
def avals {α : Type} (m : List (String × α)) : List α :=
  m.map (fun e => e.2)

/-- Rebuild a `Map` from a value list via repeated `set`, keyed by `key`
(the `forEach (x => sorted.set(key x, x))` passes of the source). -/
def refoldBy {α : Type} (key : α → String) (vs : List α) :
    List (String × α) :=
  vs.foldl (fun m a => aset (key a) a m) []

/-- Sum of a numeric field over the values of a `Map`. -/
def sumBy {α : Type} (f : α → Nat) (m : List (String × α)) : Nat :=
  (m.map (fun e => f e.2)).sum

/-! ### vscode positions, ranges, Uri, and the identifier codec -/

/-- `vscode.Position` (line/character are non-negative). -/
structure VsPosition where
  line : Nat
  character : Nat
deriving DecidableEq

/-- `Position#isBeforeOrEqual`. -/
def VsPosition.isBeforeOrEqual (a b : VsPosition) : Bool :=
  a.line < b.line || (a.line = b.line && a.character ≤ b.character)

/-- `vscode.Range`: a start and an end position. -/
structure VsRange where
  start : VsPosition
  end_ : VsPosition
deriving DecidableEq

/-- The 4-number `vscode.Range` constructor; it normalizes a reversed pair
by swapping start and end. -/
def VsRange.mk4 (sl sc el ec : Nat) : VsRange :=
  let s : VsPosition := ⟨sl, sc⟩
  let e : VsPosition := ⟨el, ec⟩
  if s.isBeforeOrEqual e then ⟨s, e⟩ else ⟨e, s⟩

/-- The two `DocumentSchemes` tags used by the codec (from `constants.ts`;
only their distinctness matters). -/
inductive DocumentSchemes where
  | Git
  | GitBlame
deriving DecidableEq

/-- The machine payload of an identifier as it is serialized into the Uri
query by `JSON.stringify` and read back by `JSON.parse`: `IGitUriData`
with the optional `range` field of `IGitBlameUriData`, a `vscode.Range`
serializing as its two corner positions `[start, end]`. -/
structure GitUriQuery where
  fileName : String
  originalFileName : Option String
  sha : String
  index : Nat
  range : Option (VsPosition × VsPosition)
deriving DecidableEq

/-- A parsed Uri as the codec observes it: the scheme tag and the JSON
query payload.  The display label built by `_toGitUri` (padded index,
author, formatted date, `sha: basename.ext` path) is human-readable
formatting that the decoders never read (`_fromGitUri` parses only
`uri.query`), and date/string display formatting is outside the spec's
scope, so it is not part of the model. -/
structure GitUri where
  scheme : DocumentSchemes
  query : GitUriQuery
deriving DecidableEq

/-- The decoded `IGitBlameUriData`: payload with the reconstructed range. -/
structure IGitBlameUriData where
  fileName : String
  originalFileName : Option String
  sha : String
  index : Nat
  range : VsRange
deriving DecidableEq

/-- Errors thrown by the codec: the `invalid scheme` `Error` of
`fromGitUri`/`fromBlameUri` (it identifies the decoder's expected scheme
and carries the offending uri, hence the actual scheme), and the JS
`TypeError` of a member access on `undefined`. -/
inductive GitUriError where
  | invalidScheme (expected actual : DocumentSchemes)
  | typeError
deriving DecidableEq

/-- One line's attribution, `IGitCommitLine`.  `line`/`originalLine` hold
`parseInt(…) - 1`; `none` models JS `NaN` (a non-numeric `parseInt`). -/
structure IGitCommitLine where
  sha : String
  line : Option Int
  originalLine : Option Int
  originalFileName : Option String
deriving DecidableEq

/-- `IGitAuthor`. -/
structure IGitAuthor where
  name : String
  lineCount : Nat
deriving DecidableEq

/-- `IGitCommit`.  `date` keeps the raw matched date string; the epoch
value `new Date(…).getTime()` used for sorting is supplied externally as
a `getTime` parameter (date parsing is a platform collaborator). -/
structure IGitCommit where
  sha : String
  fileName : String
  author : String
  date : String
  lines : List IGitCommitLine
deriving DecidableEq

/-- `IGitBlame`: the authorship model. -/
structure IGitBlame where
  authors : List (String × IGitAuthor)
  commits : List (String × IGitCommit)
  lines : List IGitCommitLine
deriving DecidableEq

/-- `GitProvider._toGitUriData`: the payload always stores the commit's own
`fileName`; a supplied `originalFileName` is added as the separate optional
field only when it is truthy (JS `if (originalFileName)`), so a supplied
empty string is dropped. -/
def GitProvider.toGitUriData (commit : IGitCommit) (index : Nat)
    (originalFileName : Option String) : GitUriQuery :=
  { fileName := commit.fileName,
    originalFileName :=
      match originalFileName with
      | some s => if s = "" then none else some s
      | none => none,
    sha := commit.sha,
    index := index,
    range := none }

/-- `GitProvider._toGitBlameUriData`: the plain payload plus the range
(serialized as its two corner positions). -/
def GitProvider.toGitBlameUriData (commit : IGitCommit) (index : Nat)
    (range : VsRange) (originalFileName : Option String) : GitUriQuery :=
  { GitProvider.toGitUriData commit index originalFileName with
      range := some (range.start, range.end_) }

/-- `GitProvider.toGitUri` (the `commitCount` argument only affects the
display label, which the model omits). -/
def GitProvider.toGitUri (commit : IGitCommit) (index : Nat)
    (commitCount : Nat) (originalFileName : Option String) : GitUri :=
  ⟨DocumentSchemes.Git, GitProvider.toGitUriData commit index originalFileName⟩

/-- `GitProvider.toBlameUri`. -/
def GitProvider.toBlameUri (commit : IGitCommit) (index : Nat)
    (commitCount : Nat) (range : VsRange)
    (originalFileName : Option String) : GitUri :=
  ⟨DocumentSchemes.GitBlame,
   GitProvider.toGitBlameUriData commit index range originalFileName⟩

/-- `GitProvider.fromGitUri`: throws on a scheme other than `Git`,
otherwise returns the parsed query payload. -/
def GitProvider.fromGitUri (uri : GitUri) : Except GitUriError GitUriQuery :=
  if uri.scheme = DocumentSchemes.Git then Except.ok uri.query
  else Except.error (GitUriError.invalidScheme DocumentSchemes.Git uri.scheme)

/-- `GitProvider.fromBlameUri`: throws on a scheme other than `GitBlame`,
otherwise parses the payload and rebuilds `data.range` with
`new Range(data.range[0].line, data.range[0].character,
data.range[1].line, data.range[1].character)`; indexing a missing
`range` raises a `TypeError`. -/
def GitProvider.fromBlameUri (uri : GitUri) :
    Except GitUriError IGitBlameUriData :=
  if uri.scheme = DocumentSchemes.GitBlame then
    match uri.query.range with
    | none => Except.error GitUriError.typeError
    | some pts =>
        Except.ok
          { fileName := uri.query.fileName,
            originalFileName := uri.query.originalFileName,
            sha := uri.query.sha,
            index := uri.query.index,
            range := VsRange.mk4 pts.1.line pts.1.character
              pts.2.line pts.2.character }
  else Except.error (GitUriError.invalidScheme DocumentSchemes.GitBlame uri.scheme)

/-! ### Blame output parsing and aggregation -/

/-- JS `String#trim` (strips `\s` characters from both ends). -/
def jsTrim (s : String) : String :=
  String.mk (((s.data.dropWhile jsWs).reverse.dropWhile jsWs).reverse)

/-- JS `String#toLowerCase` (per-character lowering). -/
def jsToLower (s : String) : String :=
  String.mk (s.data.map Char.toLower)

/-- Decimal digits to a number. -/
def digitsToNat (ds : List Char) : Nat :=
  ds.foldl (fun n c => n * 10 + (c.toNat - 48)) 0

/-- JS `parseInt(s, 10)`: skip leading whitespace, optional sign, longest
decimal-digit prefix; `none` models `NaN` (no digits). -/
def jsParseInt (s : String) : Option Int :=
  let l := s.data.dropWhile jsWs
  let signed : Int × List Char :=
    match l with
    | '-' :: r => (-1, r)
    | '+' :: r => (1, r)
    | _ => (1, l)
  let ds := signed.2.takeWhile Char.isDigit
  if ds.isEmpty then none else some (signed.1 * (digitsToNat ds : Int))

/-- `[\^0-9a-fA-F]`. -/
def hexOrCaret (c : Char) : Bool :=
  c = '^' || c.isDigit || ('a' ≤ c && c ≤ 'f') || ('A' ≤ c && c ≤ 'F')

/-- `\S`. -/
def notWs (c : Char) : Bool := !jsWs c

/-- `[0-9\S]` (digits are non-space, so this is `\S`). -/
def digitOrNotWs (c : Char) : Bool := c.isDigit || notWs c

/-- `[0-9]`. -/
def digitC (c : Char) : Bool := c.isDigit

/-- `[-|+]`. -/
def signClass (c : Char) : Bool := c = '-' || c = '|' || c = '+'

/-- `r{n}`: `n`-fold repetition. -/
def rxRep (r : Rx) : Nat → Rx
  | 0 => Rx.eps
  | n + 1 => Rx.seq r (rxRep r n)

/-- `c+` for a character class: one occurrence then a greedy class star. -/
def rxPlusG (p : Char → Bool) : Rx :=
  Rx.seq (Rx.cls p) (Rx.starG p)

/-- The date part of `blameMatcher`, group 5:
`([0-9]{4}-[0-9]{2}-[0-9]{2}\s[0-9]{2}:[0-9]{2}:[0-9]{2}\s[-|+][0-9]{4})`. -/
def blameDateRx : Rx :=
  Rx.group 5 (Rx.seq (rxRep (Rx.cls digitC) 4) (Rx.seq (Rx.ch '-')
    (Rx.seq (rxRep (Rx.cls digitC) 2) (Rx.seq (Rx.ch '-')
      (Rx.seq (rxRep (Rx.cls digitC) 2) (Rx.seq (Rx.cls jsWs)
        (Rx.seq (rxRep (Rx.cls digitC) 2) (Rx.seq (Rx.ch ':')
          (Rx.seq (rxRep (Rx.cls digitC) 2) (Rx.seq (Rx.ch ':')
            (Rx.seq (rxRep (Rx.cls digitC) 2) (Rx.seq (Rx.cls jsWs)
              (Rx.seq (Rx.cls signClass) (rxRep (Rx.cls digitC) 4))))))))))))))

/-- The source `blameMatcher` (per line, `gm`):
`^([\^0-9a-fA-F]{8})\s([\S]*)\s+([0-9\S]+)\s\((.*)\s<date>\s+([0-9]+)\)(.*)$`. -/
def blameRx : Rx :=
  Rx.seq (Rx.group 1 (rxRep (Rx.cls hexOrCaret) 8))
    (Rx.seq (Rx.cls jsWs)
      (Rx.seq (Rx.group 2 (Rx.starG notWs))
        (Rx.seq (rxPlusG jsWs)
          (Rx.seq (Rx.group 3 (rxPlusG digitOrNotWs))
            (Rx.seq (Rx.cls jsWs)
              (Rx.seq (Rx.ch '(')
                (Rx.seq (Rx.group 4 (Rx.starG notNl))
                  (Rx.seq (Rx.cls jsWs)
                    (Rx.seq blameDateRx
                      (Rx.seq (rxPlusG jsWs)
                        (Rx.seq (Rx.group 6 (rxPlusG digitC))
                          (Rx.seq (Rx.ch ')')
                            (Rx.group 7 (Rx.starG notNl))))))))))))))

/-- One attribution record: the capture groups of a `blameMatcher` match
(all seven groups always participate on a match). -/
structure BlameRecord where
  sha : String
  file : String
  originalLine : String
  authorRaw : String
  date : String
  line : String
  code : String
deriving DecidableEq

/-- Scan the raw blame output: one record per matching line,
non-matching lines silently skipped. -/
def parseBlameRecords (data : String) : List BlameRecord :=
  (splitLines data).filterMap (fun l =>
    (rxMatch blameRx l).map (fun caps =>
      { sha := (capGet caps 1).getD "",
        file := (capGet caps 2).getD "",
        originalLine := (capGet caps 3).getD "",
        authorRaw := (capGet caps 4).getD "",
        date := (capGet caps 5).getD "",
        line := (capGet caps 6).getD "",
        code := (capGet caps 7).getD "" }))

/-- Mutable state of the aggregation loop in `getBlameForFile`. -/
structure AggSt where
  authors : List (String × IGitAuthor)
  commits : List (String × IGitCommit)
  lines : List IGitCommitLine
deriving DecidableEq

/-- The get-or-create idiom `let x = map.get(k); if (!x) { x = v;
map.set(k, x) }` of the aggregation loop. -/
def ensureKey {α : Type} (k : String) (v : α) (m : List (String × α)) :
    List (String × α) :=
  match aget k m with
  | some _ => m
  | none => aset k v m

/-- The `IGitCommitLine` built for one match `m` of the aggregation loop:
1-based numbers become 0-based, and `originalFileName` is set only when
the target file name does not end (case-insensitively) with the reported
original file token. -/
def GitProvider.aggLine (fileName : String) (m : BlameRecord) :
    IGitCommitLine :=
  { sha := m.sha,
    line := (jsParseInt m.line).map (fun v => v - 1),
    originalLine := (jsParseInt m.originalLine).map (fun v => v - 1),
    originalFileName :=
      if jsEndsWith (jsToLower fileName) (jsToLower (jsTrim m.file)) then none
      else some (jsTrim m.file) }

/-- The body of the `while ((m = blameMatcher.exec(data)) != null)` loop
for one match `m`, on the target (normalized) `fileName`: ensure the
author and the commit exist, then push the line into the commit's lines
and into the model-wide lines. -/
def GitProvider.aggStep (fileName : String) (st : AggSt) (m : BlameRecord) :
    AggSt :=
  { authors := ensureKey (jsTrim m.authorRaw) ⟨jsTrim m.authorRaw, 0⟩
      st.authors,
    commits := aupdate m.sha
      (fun c => { c with lines := c.lines ++ [GitProvider.aggLine fileName m] })
      (ensureKey m.sha ⟨m.sha, fileName, jsTrim m.authorRaw, m.date, []⟩
        st.commits),
    lines := st.lines ++ [GitProvider.aggLine fileName m] }

/-- The post-loop pass
`commits.forEach(c => authors.get(c.author).lineCount += c.lines.length)`.
The source dereferences `authors.get(c.author)` without a check (it would
throw if the author were absent); the aggregation invariant proved below
shows the author is always present, where this total update agrees. -/
def GitProvider.addLineCounts (commits : List (String × IGitCommit))
    (authors : List (String × IGitAuthor)) : List (String × IGitAuthor) :=
  commits.foldl (fun as e =>
    aupdate e.2.author
      (fun a => { a with lineCount := a.lineCount + e.2.lines.length }) as)
    authors

/-- Descending-lineCount comparison used for `sort((a, b) => b.lineCount -
a.lineCount)` (modelled as a stable sort). -/
def byLineCountDesc (a b : IGitAuthor) : Bool :=
  decide (b.lineCount ≤ a.lineCount)

/-- The tail of the `Git.blame(..).then(..)` callback: bump the author
line counts, sort authors by lineCount and commits by date (both
descending) and rebuild the two maps in sorted order. -/
def GitProvider.finalize (getTime : String → Int) (st : AggSt) : IGitBlame :=
  let authors := GitProvider.addLineCounts st.commits st.authors
  let sortedAuthors := refoldBy (fun a => a.name)
    ((avals authors).mergeSort byLineCountDesc)
  let sortedCommits := refoldBy (fun c => c.sha)
    ((avals st.commits).mergeSort
      (fun a b => decide (getTime b.date ≤ getTime a.date)))
  { authors := sortedAuthors, commits := sortedCommits, lines := st.lines }

/-- The whole model-building pipeline of `getBlameForFile` applied to the
raw blame text of a (normalized) file: scan, aggregate, finalize. -/
def GitProvider.buildBlame (getTime : String → Int) (fileName data : String) :
    IGitBlame :=
  GitProvider.finalize getTime
    ((parseBlameRecords data).foldl (GitProvider.aggStep fileName) ⟨[], [], []⟩)

/-! ### Per-line and per-range queries on a blame model -/

/-- A JS exception: the `TypeError` of a member access on `undefined`. -/
inductive JsError where
  | typeError
deriving DecidableEq

/-- The author view `Object.assign({}, blame.authors.get(commit.author),
{ lineCount: … })` returned by the line queries: when the author lookup
yields `undefined`, `Object.assign` silently skips it, leaving `name`
absent. -/
structure BlameLineAuthor where
  name : Option String
  lineCount : Nat
deriving DecidableEq

/-- `IGitBlameLine`. -/
structure IGitBlameLine where
  author : BlameLineAuthor
  commit : IGitCommit
  line : IGitCommitLine
deriving DecidableEq

/-- The projection inside `getBlameForLine` (`.then(blame => …)`): index
the model's lines, resolve the line's sha in `commits`, and build the
author view.  `blame.lines[line]` or `blame.commits.get(…)` being
`undefined` makes the subsequent member access throw a `TypeError`; the
source performs no existence check and raises no domain-specific error. -/
def GitProvider.getBlameForLine (blame : IGitBlame) (line : Nat) :
    Except JsError IGitBlameLine :=
  match blame.lines.get? line with
  | none => Except.error JsError.typeError
  | some blameLine =>
      match aget blameLine.sha blame.commits with
      | none => Except.error JsError.typeError
      | some commit =>
          Except.ok
            { author := { name := (aget commit.author blame.authors).map
                            (fun a => a.name),
                          lineCount := commit.lines.length },
              commit := commit,
              line := blameLine }

/-- JS `l.line >= n` on a possibly-`NaN` line number (`NaN` compares
false). -/
def jsGeNat (v : Option Int) (n : Nat) : Bool :=
  match v with
  | none => false
  | some x => decide ((n : Int) ≤ x)

/-- JS `l.line <= n` on a possibly-`NaN` line number. -/
def jsLeNat (v : Option Int) (n : Nat) : Bool :=
  match v with
  | none => false
  | some x => decide (x ≤ (n : Int))

/-- The projection inside `getBlameForRange` (`.then(blame => …)`): on an
empty model or a range covering exactly lines `0 … lines.length - 1`
return the model itself; otherwise slice the lines, keep only commits
whose sha occurs in the slice (with their lines filtered to the range)
and rebuild the authors with range-restricted line counts. -/
def GitProvider.getBlameForRange (blame : IGitBlame) (range : VsRange) :
    IGitBlame :=
  if blame.lines.length = 0 then blame
  else if range.start.line = 0 ∧ range.end_.line = blame.lines.length - 1 then
    blame
  else
    let lines := (blame.lines.drop range.start.line).take
      (range.end_.line + 1 - range.start.line)
    let shas := lines.map (fun l => l.sha)
    let acc := blame.commits.foldl
      (fun (acc : List (String × IGitAuthor) × List (String × IGitCommit)) e =>
        let c := e.2
        if shas.contains c.sha then
          let commit : IGitCommit :=
            { c with lines := c.lines.filter (fun l =>
                jsGeNat l.line range.start.line && jsLeNat l.line range.end_.line) }
          let commits := aset commit.sha commit acc.2
          let authors :=
            match aget commit.author acc.1 with
            | some _ => acc.1
            | none => aset commit.author ⟨commit.author, 0⟩ acc.1
          (aupdate commit.author
            (fun a => { a with lineCount := a.lineCount + commit.lines.length })
            authors, commits)
        else acc)
      ([], [])
    let sortedAuthors := refoldBy (fun a => a.name)
      ((avals acc.1).mergeSort byLineCountDesc)
    { authors := sortedAuthors, commits := acc.2, lines := lines }

/-! ### The per-file cache of `GitProvider` -/

/-- Failure of the external raw-output fetch collaborator `Git.blame`
(process/IO failure). -/
inductive GitError where
  | processFailed
deriving DecidableEq

/-- The cache state of a `GitProvider`: `_blames` maps a normalized file
name to the promise created for it, and `builds` logs the normalized file
of every build ever started (a promise is identified by its index in this
log, so `builds.length` is the number of underlying builds triggered). -/
structure GitProviderState where
  blames : List (String × Nat)
  builds : List String
deriving DecidableEq

/-- `GitProvider.getBlameForFile`, as a step on the cache state
(`Git.normalizePath` is the external `normalize` parameter).  The call
synchronously checks `_blames`, and on a miss creates the build promise
and stores it in `_blames` before returning — i.e. before the build
completes; JS run-to-completion makes this whole step atomic, so `N`
concurrent calls interleave as `N` consecutive steps. -/
def GitProvider.getBlameForFile (normalize : String → String)
    (st : GitProviderState) (fileName : String) : Nat × GitProviderState :=
  let f := normalize fileName
  match aget f st.blames with
  | some h => (h, st)
  | none =>
      (st.builds.length,
       ⟨aset f st.builds.length st.blames, st.builds ++ [f]⟩)

/-- `GitProvider._removeFile`: explicit invalidation (document closed or
saved) — the only code path that ever deletes a `_blames` entry. -/
def GitProvider.removeFile (normalize : String → String)
    (st : GitProviderState) (fileName : String) : GitProviderState :=
  ⟨(st.blames.filter (fun e => e.1 ≠ normalize fileName)), st.builds⟩

/-- The eventual outcome of the promise with handle `h`: fetch the raw
output for the logged file via the external collaborator `gitBlame` and
build the model; a fetch failure rejects the promise.  `getBlameForFile`
attaches no failure handler, so the outcome never feeds back into the
cache state. -/
def GitProvider.buildOutcome (gitBlame : String → Except GitError String)
    (getTime : String → Int) (st : GitProviderState) (h : Nat) :
    Option (Except GitError IGitBlame) :=
  (st.builds.get? h).map (fun f =>
    match gitBlame f with
    | Except.error e => Except.error e
    | Except.ok data => Except.ok (GitProvider.buildBlame getTime f data))

/-- `N` consecutive `getBlameForFile` calls (the interleaving of their
atomic synchronous sections), returning the received handles. -/
def GitProvider.runGets (normalize : String → String)
    (st : GitProviderState) : List String → List Nat × GitProviderState
  | [] => ([], st)
  | f :: fs =>
      let r := GitProvider.getBlameForFile normalize st f
      let rest := GitProvider.runGets normalize r.2 fs
      (r.1 :: rest.1, rest.2)

/-! ### Basic association-list lemmas -/

theorem aget_aset_self {α : Type} (k : String) (v : α)
    (m : List (String × α)) : aget k (aset k v m) = some v := by
  induction m with
  | nil => simp [aget, aset]
  | cons e rest ih =>
      by_cases h : e.1 = k
      · simp [aset, h, aget]
      · simp [aset, h, aget, ih]

theorem aget_aset_ne {α : Type} (k k' : String) (v : α)
    (m : List (String × α)) (h : k ≠ k') :
    aget k' (aset k v m) = aget k' m := by
  induction m with
  | nil => simp [aget, aset, h]
  | cons e rest ih =>
      by_cases he : e.1 = k
      · have h2 : e.1 ≠ k' := by rw [he]; exact h
        simp [aset, he, aget, h, h2]
      · simp [aset, he, aget, ih]

/-! ### Example data shared by several concrete evaluations -/

/-- A concrete commit used in concrete instantiations. -/
def exCommit : IGitCommit :=
  ⟨"a1b2c3d4", "a/b.txt", "Alice", "2020-01-01 10:00:00 +0000", []⟩

/-- A concrete one-line blame model. -/
def exBlameOneLine : IGitBlame :=
  ⟨[("Alice", ⟨"Alice", 1⟩)],
   [("a1b2c3d4", ⟨"a1b2c3d4", "a/b.txt", "Alice", "2020-01-01 10:00:00 +0000",
     [⟨"a1b2c3d4", some 0, some 0, none⟩]⟩)],
   [⟨"a1b2c3d4", some 0, some 0, none⟩]⟩

/-! ### C1 — codec round trip -/

/-- C1: for every payload produced by the encoders (`toGitUri` plain,
`toBlameUri` ranged, `originalFileName` present or absent), decoding the
encoded identifier with the matching decoder returns exactly the payload
that was encoded, the ranged kind's rectangular range being rebuilt from
the two stored corner points (every `vscode.Range` satisfies
`start ≤ end`, which is the stated hypothesis). -/
theorem C1_codec_roundtrip (c : IGitCommit) (i n : Nat)
    (orig : Option String) (r : VsRange)
    (hr : r.start.isBeforeOrEqual r.end_ = true) :
    GitProvider.fromGitUri (GitProvider.toGitUri c i n orig)
      = Except.ok (GitProvider.toGitUriData c i orig) ∧
    GitProvider.fromBlameUri (GitProvider.toBlameUri c i n r orig)
      = Except.ok
          { fileName := c.fileName,
            originalFileName :=
              (GitProvider.toGitUriData c i orig).originalFileName,
            sha := c.sha,
            index := i,
            range := r } := by
  constructor
  · rfl
  · simp only [GitProvider.fromBlameUri, GitProvider.toBlameUri,
      GitProvider.toGitBlameUriData, GitProvider.toGitUriData, VsRange.mk4,
      hr, if_true, if_pos]

/-- Witness for C1 at a concrete commit, index and range. -/
theorem C1_codec_roundtrip_witness :
    ((⟨⟨0, 0⟩, ⟨2, 3⟩⟩ : VsRange).start.isBeforeOrEqual
        (⟨⟨0, 0⟩, ⟨2, 3⟩⟩ : VsRange).end_ = true) ∧
    (GitProvider.fromGitUri (GitProvider.toGitUri exCommit 1 3 (some "old.txt"))
      = Except.ok (GitProvider.toGitUriData exCommit 1 (some "old.txt")) ∧
    GitProvider.fromBlameUri
        (GitProvider.toBlameUri exCommit 1 3 ⟨⟨0, 0⟩, ⟨2, 3⟩⟩ (some "old.txt"))
      = Except.ok
          { fileName := exCommit.fileName,
            originalFileName :=
              (GitProvider.toGitUriData exCommit 1 (some "old.txt")).originalFileName,
            sha := exCommit.sha,
            index := 1,
            range := ⟨⟨0, 0⟩, ⟨2, 3⟩⟩ }) :=
  ⟨by decide, C1_codec_roundtrip exCommit 1 3 (some "old.txt") ⟨⟨0, 0⟩, ⟨2, 3⟩⟩
    (by decide)⟩

/-! ### C7 — scheme mismatch on decode -/

/-- C7: decoding with a decoder whose expected scheme tag differs from the
identifier's tag fails with the invalid-scheme error naming the expected
and the actual tag (in particular a plain identifier fed to the ranged
decoder), and a decoder succeeds only on its own tag. -/
theorem C7_scheme_mismatch :
    (∀ u : GitUri, u.scheme ≠ DocumentSchemes.GitBlame →
        GitProvider.fromBlameUri u
          = Except.error
              (GitUriError.invalidScheme DocumentSchemes.GitBlame u.scheme)) ∧
    (∀ u : GitUri, u.scheme ≠ DocumentSchemes.Git →
        GitProvider.fromGitUri u
          = Except.error
              (GitUriError.invalidScheme DocumentSchemes.Git u.scheme)) ∧
    (∀ (c : IGitCommit) (i n : Nat) (orig : Option String),
        GitProvider.fromBlameUri (GitProvider.toGitUri c i n orig)
          = Except.error (GitUriError.invalidScheme DocumentSchemes.GitBlame
              DocumentSchemes.Git)) ∧
    (∀ (u : GitUri) (d : IGitBlameUriData),
        GitProvider.fromBlameUri u = Except.ok d →
          u.scheme = DocumentSchemes.GitBlame) ∧
    (∀ (u : GitUri) (q : GitUriQuery),
        GitProvider.fromGitUri u = Except.ok q →
          u.scheme = DocumentSchemes.Git) := by
  refine ⟨?_, ?_, ?_, ?_, ?_⟩
  · intro u h
    simp [GitProvider.fromBlameUri, h]
  · intro u h
    simp [GitProvider.fromGitUri, h]
  · intro c i n orig
    rfl
  · intro u d h
    by_cases hs : u.scheme = DocumentSchemes.GitBlame
    · exact hs
    · simp [GitProvider.fromBlameUri, hs] at h
  · intro u q h
    by_cases hs : u.scheme = DocumentSchemes.Git
    · exact hs
    · simp [GitProvider.fromGitUri, hs] at h

/-- Witness for C7: a concretely encoded plain identifier rejected by the
ranged decoder. -/
theorem C7_scheme_mismatch_witness :
    GitProvider.fromBlameUri (GitProvider.toGitUri exCommit 1 3 none)
      = Except.error (GitUriError.invalidScheme DocumentSchemes.GitBlame
          DocumentSchemes.Git) :=
  C7_scheme_mismatch.2.2.1 exCommit 1 3 none

/-! ### C10 — payload fileName vs originalFileName -/

/-- C10 as stated is refuted at a supplied empty `originalFileName`: the
truthiness guard `if (originalFileName)` drops a supplied `""`, so the
optional field does not carry it. -/
theorem C10_counterexample :
    ¬ ((GitProvider.toGitUriData exCommit 1 (some "")).originalFileName
        = some "") := by
  decide

/-- C10 (amended): the payload's `fileName` field always stores the
commit's own `fileName`, never the supplied `originalFileName`; the
optional `originalFileName` field holds the supplied value exactly when
one is supplied and it is non-empty (truthy), and is absent otherwise —
in particular absent when no `originalFileName` is supplied. -/
theorem C10_payload_fields (c : IGitCommit) (i : Nat) (orig : Option String) :
    (GitProvider.toGitUriData c i orig).fileName = c.fileName ∧
    (GitProvider.toGitUriData c i orig).originalFileName
      = (match orig with
         | some s => if s = "" then none else some s
         | none => none) :=
  ⟨rfl, rfl⟩

/-! ### C8 — the scp-like URL scenario -/

/-- C8 as stated is refuted on its own concrete input: the scheme
component is not the empty string. -/
theorem C8_counterexample :
    ¬ (GitRemoteParser.parseGitUrl "git@host.xz:user/project.git"
        = (some "", some "host.xz", "user/project")) := by
  decide

/-- C8 (amended): on `git@host.xz:user/project.git` the matcher takes the
`git@(.*):` alternative, so domain is `host.xz` and path is
`user/project` with the trailing `.git` stripped, but none of the three
scheme groups participates, so the scheme component is JS `undefined`
(`match[1] || match[3] || match[6]` over three `undefined`s), not `""`. -/
theorem C8_scp_like_url :
    GitRemoteParser.parseGitUrl "git@host.xz:user/project.git"
      = (none, some "host.xz", "user/project") := by
  decide

/-! ### C6 — lookups with a violated construction invariant -/

/-- A model whose single line carries a sha absent from `commits`. -/
def danglingShaModel : IGitBlame :=
  ⟨[], [], [⟨"beef0000", some 0, some 0, none⟩]⟩

/-- A model whose commit's author is absent from `authors`. -/
def danglingAuthorModel : IGitBlame :=
  ⟨[],
   [("beef0000", ⟨"beef0000", "a/b.txt", "Alice", "2020",
     [⟨"beef0000", some 0, some 0, none⟩]⟩)],
   [⟨"beef0000", some 0, some 0, none⟩]⟩

/-- C6 concerns a code bug: when the line's sha is missing from the
model's commits, `getBlameForLine` dereferences the `undefined` result of
`commits.get` and throws a bare `TypeError` instead of an explicit
NotFound error; when the commit's author is missing from `authors`,
`Object.assign` silently skips the `undefined` author and the call even
succeeds, returning an author view with no name at all. -/
theorem C6_invariant_violation_behavior :
    GitProvider.getBlameForLine danglingShaModel 0
      = Except.error JsError.typeError ∧
    (GitProvider.getBlameForLine danglingAuthorModel 0).map
        (fun bl => bl.author.name)
      = Except.ok none :=
  ⟨rfl, rfl⟩

/-! ### C4 — full-range projection is the identity -/

/-- C4: projecting a model over the range that exactly covers all of its
lines (start line 0, end line the last line index) returns the model
itself unchanged. -/
theorem C4_full_range_identity (blame : IGitBlame) (range : VsRange)
    (h1 : blame.lines ≠ []) (h2 : range.start.line = 0)
    (h3 : range.end_.line = blame.lines.length - 1) :
    GitProvider.getBlameForRange blame range = blame := by
  have h0 : ¬ (blame.lines.length = 0) := by
    simpa using h1
  unfold GitProvider.getBlameForRange
  rw [if_neg h0, if_pos ⟨h2, h3⟩]

/-- Witness for C4 at a concrete one-line model and the range `0 … 0`. -/
theorem C4_full_range_identity_witness :
    exBlameOneLine.lines ≠ [] ∧
    GitProvider.getBlameForRange exBlameOneLine ⟨⟨0, 0⟩, ⟨0, 5⟩⟩
      = exBlameOneLine :=
  ⟨by decide,
   C4_full_range_identity exBlameOneLine ⟨⟨0, 0⟩, ⟨0, 5⟩⟩ (by decide) rfl rfl⟩

/-! ### C5 — a failed build is not removed from the cache -/

/-- C5 as stated is refuted: after a first `getBlameForFile` for "f"
whose raw-output fetch fails (the promise's outcome is the propagated
fetch error), the cache entry is still present — `getBlameForFile`
attaches no rejection handler and nothing ever deletes the entry on
failure — and a later call returns the same handle with no fresh build
(the build log still has length 1). -/
theorem C5_counterexample :
    (GitProvider.buildOutcome (fun _ => Except.error GitError.processFailed)
        (fun _ => 0)
        ((GitProvider.getBlameForFile (fun s => s) ⟨[], []⟩ "f").2) 0
      = some (Except.error GitError.processFailed)) ∧
    ¬ (aget "f"
        ((GitProvider.getBlameForFile (fun s => s) ⟨[], []⟩ "f").2).blames
        = none) ∧
    ((GitProvider.getBlameForFile (fun s => s)
        ((GitProvider.getBlameForFile (fun s => s) ⟨[], []⟩ "f").2)
        "f").1 = 0 ∧
     (GitProvider.getBlameForFile (fun s => s)
        ((GitProvider.getBlameForFile (fun s => s) ⟨[], []⟩ "f").2)
        "f").2.builds.length = 1) := by
  exact ⟨rfl, by decide, rfl, rfl⟩

/-- C5 (amended): a failed build's entry is NOT removed from the cache:
whenever a handle is cached for a path — in particular one whose build
failed — any later `getBlameForFile` for that path returns that same
handle and leaves the state untouched (no fresh build), until the entry
is explicitly removed by `_removeFile` (document close/save). -/
theorem C5_failed_entry_retained (normalize : String → String)
    (gitBlame : String → Except GitError String) (getTime : String → Int)
    (st : GitProviderState) (fileName : String) (h : Nat) (e : GitError)
    (hmem : aget (normalize fileName) st.blames = some h)
    (hfail : GitProvider.buildOutcome gitBlame getTime st h
      = some (Except.error e)) :
    GitProvider.getBlameForFile normalize st fileName = (h, st) := by
  simp [GitProvider.getBlameForFile, hmem]

/-- Witness for C5 (amended) at the concrete post-failure state. -/
theorem C5_failed_entry_retained_witness :
    (aget "f" (⟨[("f", 0)], ["f"]⟩ : GitProviderState).blames = some 0) ∧
    (GitProvider.buildOutcome (fun _ => Except.error GitError.processFailed)
        (fun _ => 0) ⟨[("f", 0)], ["f"]⟩ 0
      = some (Except.error GitError.processFailed)) ∧
    GitProvider.getBlameForFile (fun s => s) ⟨[("f", 0)], ["f"]⟩ "f"
      = (0, ⟨[("f", 0)], ["f"]⟩) :=
  ⟨rfl, rfl,
   C5_failed_entry_retained (fun s => s)
     (fun _ => Except.error GitError.processFailed) (fun _ => 0)
     ⟨[("f", 0)], ["f"]⟩ "f" 0 GitError.processFailed rfl rfl⟩

/-! ### C2 — cache coalescing -/

/-- Once a handle is cached for key `k`, any run of `getBlameForFile`
calls whose arguments normalize to `k` returns that handle every time and
leaves the state unchanged. -/
theorem runGets_all_hit (normalize : String → String) (st : GitProviderState)
    (k : String) (h : Nat) (files : List String)
    (hk : ∀ f ∈ files, normalize f = k)
    (hhit : aget k st.blames = some h) :
    GitProvider.runGets normalize st files = (files.map (fun _ => h), st) := by
  induction files with
  | nil => rfl
  | cons f fs ih =>
      have hf : normalize f = k := hk f (List.mem_cons_self f fs)
      simp [GitProvider.runGets, GitProvider.getBlameForFile, hf, hhit,
        ih (fun g hg => hk g (List.mem_cons_of_mem f hg))]

/-- C2: `getBlameForFile` stores the pending handle synchronously, before
the build completes, so any number of interleaved calls for the same
normalized path starting from a state with no entry all receive the very
same handle (hence the result of a single shared build) and exactly one
underlying build is triggered. -/
theorem C2_cache_coalescing (normalize : String → String)
    (st : GitProviderState) (files : List String) (k : String)
    (hk : ∀ f ∈ files, normalize f = k)
    (hmiss : aget k st.blames = none)
    (hne : files ≠ []) :
    (∀ h ∈ (GitProvider.runGets normalize st files).1,
        h = st.builds.length) ∧
    (GitProvider.runGets normalize st files).2.builds.length
      = st.builds.length + 1 := by
  cases files with
  | nil => exact absurd rfl hne
  | cons f fs =>
      have hf : normalize f = k := hk f (List.mem_cons_self f fs)
      have hstep : GitProvider.getBlameForFile normalize st f
          = (st.builds.length,
             ⟨aset k st.builds.length st.blames,
              st.builds ++ [normalize f]⟩) := by
        simp [GitProvider.getBlameForFile, hf, hmiss]
      have hrest := runGets_all_hit normalize
        ⟨aset k st.builds.length st.blames, st.builds ++ [normalize f]⟩
        k st.builds.length fs (fun g hg => hk g (List.mem_cons_of_mem f hg))
        (aget_aset_self k st.builds.length st.blames)
      have hrun : GitProvider.runGets normalize st (f :: fs)
          = (st.builds.length :: fs.map (fun _ => st.builds.length),
             ⟨aset k st.builds.length st.blames,
              st.builds ++ [normalize f]⟩) := by
        simp [GitProvider.runGets, hstep, hrest]
      rw [hrun]
      constructor
      · intro h hh
        rw [List.mem_cons] at hh
        rcases hh with h1 | h2
        · exact h1
        · rcases List.mem_map.mp h2 with ⟨a, _, ha⟩
          exact ha.symm
      · simp

/-- Witness for C2: three interleaved calls for path "a" on the empty
cache all receive handle 0 and trigger exactly one build. -/
theorem C2_cache_coalescing_witness :
    (∀ f ∈ ["a", "a", "a"], (fun s => s) f = "a") ∧
    (∀ h ∈ (GitProvider.runGets (fun s => s) ⟨[], []⟩ ["a", "a", "a"]).1,
        h = 0) ∧
    (GitProvider.runGets (fun s => s) ⟨[], []⟩
        ["a", "a", "a"]).2.builds.length = 1 :=
  ⟨by decide,
   (C2_cache_coalescing (fun s => s) ⟨[], []⟩ ["a", "a", "a"] "a"
     (by decide) rfl (by decide)).1,
   (C2_cache_coalescing (fun s => s) ⟨[], []⟩ ["a", "a", "a"] "a"
     (by decide) rfl (by decide)).2⟩

/-! ### C9 — remote dedup by uniqueness key -/

/-- A map over the remotes that preserves every `uniquenessKey` preserves
pairwise distinctness of the keys. -/
theorem pairwise_key_map (l : List GitRemote) (g : GitRemote → GitRemote)
    (hg : ∀ r, (g r).uniquenessKey = r.uniquenessKey)
    (hp : l.Pairwise (fun a b => a.uniquenessKey ≠ b.uniquenessKey)) :
    (l.map g).Pairwise (fun a b => a.uniquenessKey ≠ b.uniquenessKey) := by
  refine List.Pairwise.map g ?_ hp
  intro a b hab
  rw [hg a, hg b]
  exact hab

/-- Appending a remote whose key is absent preserves distinctness. -/
theorem pairwise_key_append (l : List GitRemote) (x : GitRemote)
    (hx : ∀ r ∈ l, r.uniquenessKey ≠ x.uniquenessKey)
    (hp : l.Pairwise (fun a b => a.uniquenessKey ≠ b.uniquenessKey)) :
    (l ++ [x]).Pairwise (fun a b => a.uniquenessKey ≠ b.uniquenessKey) := by
  rw [List.pairwise_append]
  refine ⟨hp, List.pairwise_singleton _ _, ?_⟩
  intro a ha b hb
  rw [List.mem_singleton] at hb
  subst hb
  exact hx a ha

/-- One `parseStep` preserves pairwise distinctness of uniqueness keys. -/
theorem parseStep_pairwise (repoPath : String)
    (factory : Option String → String → Option RemoteProvider)
    (remotes : List GitRemote) (caps : Caps)
    (hp : remotes.Pairwise (fun a b => a.uniquenessKey ≠ b.uniquenessKey)) :
    (GitRemoteParser.parseStep repoPath factory remotes caps).Pairwise
      (fun a b => a.uniquenessKey ≠ b.uniquenessKey) := by
  simp only [GitRemoteParser.parseStep]
  split
  · apply pairwise_key_map _ _ _ hp
    intro r
    split
    · rfl
    · rfl
  next hfind =>
    apply pairwise_key_append _ _ _ hp
    intro r hr
    have := List.find?_eq_none.mp hfind r hr
    simpa using this

/-- Folding any match list through `parseStep` from a key-distinct
accumulator keeps the keys pairwise distinct. -/
theorem parse_fold_pairwise (repoPath : String)
    (factory : Option String → String → Option RemoteProvider)
    (ms : List Caps) :
    ∀ acc : List GitRemote,
      acc.Pairwise (fun a b => a.uniquenessKey ≠ b.uniquenessKey) →
      (ms.foldl (GitRemoteParser.parseStep repoPath factory) acc).Pairwise
        (fun a b => a.uniquenessKey ≠ b.uniquenessKey) := by
  induction ms with
  | nil => intro acc h; exact h
  | cons m ms ih =>
      intro acc h
      exact ih _ (parseStep_pairwise repoPath factory acc m h)

/-- C9: `parse` never returns two remotes sharing a uniqueness key —
entries with the same domain/path merge into one remote, each later
occurrence appending to its `types` — and on the two-line fetch/push
listing for the same URL it returns exactly one remote with uniqueness
key `github.com/user/repo` and a `types` sequence of length 2 (for any
repo path and provider factory). -/
theorem C9_remote_dedup :
    (∀ (data repoPath : String)
        (factory : Option String → String → Option RemoteProvider),
        (GitRemoteParser.parse data repoPath factory).Pairwise
          (fun a b => a.uniquenessKey ≠ b.uniquenessKey)) ∧
    (∀ (repoPath : String)
        (factory : Option String → String → Option RemoteProvider),
        (GitRemoteParser.parse
            "origin\thttps://github.com/user/repo.git (fetch)\norigin\thttps://github.com/user/repo.git (push)"
            repoPath factory).map
            (fun r => (r.uniquenessKey, r.types.length))
          = [("github.com/user/repo", 2)]) := by
  constructor
  · intro data repoPath factory
    by_cases hd : data = ""
    · simp [GitRemoteParser.parse, hd]
    · simp only [GitRemoteParser.parse, if_neg hd]
      split
      · exact List.Pairwise.nil
      · exact parse_fold_pairwise repoPath factory _ [] List.Pairwise.nil
  · intro repoPath factory
    rfl

/-! ### C3 — line-count bookkeeping lemmas -/

theorem aget_eq_none_iff {α : Type} (k : String) (m : List (String × α)) :
    aget k m = none ↔ ∀ e ∈ m, e.1 ≠ k := by
  induction m with
  | nil => simp [aget]
  | cons e rest ih =>
      by_cases he : e.1 = k
      · simp [aget, he]
      · simp [aget, he, ih]

theorem aset_absent {α : Type} (k : String) (v : α) (m : List (String × α))
    (h : aget k m = none) : aset k v m = m ++ [(k, v)] := by
  induction m with
  | nil => rfl
  | cons e rest ih =>
      by_cases he : e.1 = k
      · rw [aget, if_pos he] at h
        exact absurd h (by simp)
      · rw [aget, if_neg he] at h
        simp [aset, he, ih h]

theorem aget_none_not_mem_keys {α : Type} (k : String)
    (m : List (String × α)) (h : aget k m = none) :
    k ∉ m.map (fun e => e.1) := by
  intro hmem
  rcases List.mem_map.mp hmem with ⟨e, hem, hek⟩
  exact (aget_eq_none_iff k m).mp h e hem hek

theorem aupdate_keys {α : Type} (k : String) (f : α → α)
    (m : List (String × α)) :
    (aupdate k f m).map (fun e => e.1) = m.map (fun e => e.1) := by
  induction m with
  | nil => rfl
  | cons e rest ih => by_cases he : e.1 = k <;> simp [aupdate, he, ih]

theorem aget_aupdate_self {α : Type} (k : String) (f : α → α)
    (m : List (String × α)) :
    aget k (aupdate k f m) = (aget k m).map f := by
  induction m with
  | nil => rfl
  | cons e rest ih => by_cases he : e.1 = k <;> simp [aupdate, he, aget, ih]

theorem aget_aupdate_ne {α : Type} (k x : String) (f : α → α)
    (m : List (String × α)) (h : x ≠ k) :
    aget x (aupdate k f m) = aget x m := by
  induction m with
  | nil => rfl
  | cons e rest ih =>
      by_cases he : e.1 = k
      · have h2 : ¬ (k = x) := fun hc => h hc.symm
        simp [aupdate, he, aget, h2]
      · simp [aupdate, he, aget, ih]

theorem aget_aupdate_ne_none {α : Type} (k x : String) (f : α → α)
    (m : List (String × α)) (h : aget x m ≠ none) :
    aget x (aupdate k f m) ≠ none := by
  by_cases hx : x = k
  · subst hx
    rw [aget_aupdate_self]
    intro hc
    exact h (by simpa using hc)
  · rw [aget_aupdate_ne k x f m hx]
    exact h

theorem aupdate_forall {α : Type} (P : String × α → Prop) (k : String)
    (f : α → α) (m : List (String × α))
    (hm : ∀ e ∈ m, P e) (hf : ∀ a b, P (a, b) → P (a, f b)) :
    ∀ e ∈ aupdate k f m, P e := by
  induction m with
  | nil => intro e he; cases he
  | cons e rest ih =>
      intro x hx
      by_cases he : e.1 = k
      · rw [aupdate, if_pos he] at hx
        rcases List.mem_cons.mp hx with h1 | h2
        · subst h1
          exact hf e.1 e.2 (hm e (List.mem_cons_self e rest))
        · exact hm x (List.mem_cons_of_mem e h2)
      · rw [aupdate, if_neg he] at hx
        rcases List.mem_cons.mp hx with h1 | h2
        · subst h1
          exact hm x (List.mem_cons_self x rest)
        · exact ih (fun y hy => hm y (List.mem_cons_of_mem e hy)) x h2

theorem ensureKey_nodup {α : Type} (k : String) (v : α)
    (m : List (String × α)) (h : (m.map (fun e => e.1)).Nodup) :
    ((ensureKey k v m).map (fun e => e.1)).Nodup := by
  unfold ensureKey
  split
  · exact h
  next hnone =>
    rw [aset_absent k v m hnone]
    rw [List.map_append, List.nodup_append]
    refine ⟨h, by simp, ?_⟩
    intro a ha hb
    simp at hb
    rw [hb] at ha
    exact aget_none_not_mem_keys k m hnone ha

theorem ensureKey_forall {α : Type} (P : String × α → Prop) (k : String)
    (v : α) (m : List (String × α))
    (hm : ∀ e ∈ m, P e) (hv : P (k, v)) : ∀ e ∈ ensureKey k v m, P e := by
  unfold ensureKey
  split
  · exact hm
  next hnone =>
    rw [aset_absent k v m hnone]
    intro e he
    rcases List.mem_append.mp he with h1 | h2
    · exact hm e h1
    · rw [List.mem_singleton] at h2
      subst h2
      exact hv

theorem ensureKey_aget_mono {α : Type} (k x : String) (v : α)
    (m : List (String × α)) (h : aget x m ≠ none) :
    aget x (ensureKey k v m) ≠ none := by
  unfold ensureKey
  split
  · exact h
  · by_cases hx : x = k
    · subst hx
      rw [aget_aset_self]
      simp
    · rw [aget_aset_ne k x v m (fun hc => hx hc.symm)]
      exact h

theorem ensureKey_aget_self {α : Type} (k : String) (v : α)
    (m : List (String × α)) : aget k (ensureKey k v m) ≠ none := by
  unfold ensureKey
  split
  next w hsome =>
    rw [hsome]
    simp
  next hnone =>
    rw [aget_aset_self]
    simp

theorem ensureKey_keys_sub {α : Type} (k x : String) (v : α)
    (m : List (String × α)) (h : aget x (ensureKey k v m) = none) :
    aget x m = none := by
  unfold ensureKey at h
  revert h
  split
  · exact fun h => h
  next hnone =>
    intro h
    by_cases hx : x = k
    · subst hx
      exact hnone
    · rw [aget_aset_ne k x v m (fun hc => hx hc.symm)] at h
      exact h

theorem sumBy_append {α : Type} (f : α → Nat) (m1 m2 : List (String × α)) :
    sumBy f (m1 ++ m2) = sumBy f m1 + sumBy f m2 := by
  simp [sumBy]

theorem sumBy_zero {α : Type} (f : α → Nat) (m : List (String × α))
    (h : ∀ e ∈ m, f e.2 = 0) : sumBy f m = 0 := by
  apply List.sum_eq_zero
  intro x hx
  rcases List.mem_map.mp hx with ⟨e, he, hev⟩
  rw [← hev]
  exact h e he

theorem sumBy_aupdate {α : Type} (f : α → Nat) (k : String) (g : α → α)
    (m : List (String × α)) (n : Nat)
    (hpres : aget k m ≠ none) (hg : ∀ v, f (g v) = f v + n) :
    sumBy f (aupdate k g m) = sumBy f m + n := by
  induction m with
  | nil => exact absurd rfl hpres
  | cons e rest ih =>
      by_cases he : e.1 = k
      · simp [aupdate, he, sumBy, hg]
        omega
      · rw [aget, if_neg he] at hpres
        simp [aupdate, he, sumBy] at ih ⊢
        rw [ih hpres]
        omega

theorem sumBy_ensureKey {α : Type} (f : α → Nat) (k : String) (v : α)
    (m : List (String × α)) (hv : f v = 0) :
    sumBy f (ensureKey k v m) = sumBy f m := by
  unfold ensureKey
  split
  · rfl
  next hnone =>
    rw [aset_absent k v m hnone, sumBy_append]
    simp [sumBy, hv]

/-- The invariant maintained by the aggregation loop (before the final
line-count pass): keys are unique, each author entry is keyed by its name
with a still-zero count, each commit entry is keyed by its sha and its
author is present in the authors map, and the model-wide line count
equals the sum of the per-commit line counts. -/
structure AggInv (st : AggSt) : Prop where
  anodup : (st.authors.map (fun e => e.1)).Nodup
  cnodup : (st.commits.map (fun e => e.1)).Nodup
  aname : ∀ e ∈ st.authors, e.2.name = e.1
  azero : ∀ e ∈ st.authors, e.2.lineCount = 0
  csha : ∀ e ∈ st.commits, e.2.sha = e.1
  cauthor : ∀ e ∈ st.commits, aget e.2.author st.authors ≠ none
  slines : st.lines.length = sumBy (fun c => c.lines.length) st.commits

theorem aggStep_inv (fileName : String) (st : AggSt) (m : BlameRecord)
    (h : AggInv st) : AggInv (GitProvider.aggStep fileName st m) := by
  obtain ⟨anodup, cnodup, aname, azero, csha, cauthor, slines⟩ := h
  refine ⟨?_, ?_, ?_, ?_, ?_, ?_, ?_⟩
  · exact ensureKey_nodup _ _ _ anodup
  · show ((aupdate m.sha _
      (ensureKey m.sha _ st.commits)).map (fun e => e.1)).Nodup
    rw [aupdate_keys]
    exact ensureKey_nodup _ _ _ cnodup
  · exact ensureKey_forall _ _ _ _ aname rfl
  · exact ensureKey_forall _ _ _ _ azero rfl
  · apply aupdate_forall _ _ _ _ (ensureKey_forall _ _ _ _ csha rfl)
    intro a b hb
    exact hb
  · refine aupdate_forall _ _ _ _ ?_ (fun a b hb => hb)
    apply ensureKey_forall
    · intro e he
      exact ensureKey_aget_mono _ _ _ _ (cauthor e he)
    · exact ensureKey_aget_self _ _ _
  · show (st.lines ++ [GitProvider.aggLine fileName m]).length
      = sumBy (fun c => c.lines.length) (aupdate m.sha _
          (ensureKey m.sha ⟨m.sha, fileName, jsTrim m.authorRaw, m.date, []⟩
            st.commits))
    rw [List.length_append,
      sumBy_aupdate _ _ _ _ 1 (ensureKey_aget_self _ _ _) (fun v => by simp)]
    rw [sumBy_ensureKey (fun c => c.lines.length) m.sha
      ⟨m.sha, fileName, jsTrim m.authorRaw, m.date, []⟩ st.commits rfl]
    rw [slines]
    simp

theorem agg_fold_inv (fileName : String) (ms : List BlameRecord) :
    ∀ st : AggSt, AggInv st →
      AggInv (ms.foldl (GitProvider.aggStep fileName) st) := by
  induction ms with
  | nil => exact fun st h => h
  | cons m ms ih =>
      intro st h
      exact ih _ (aggStep_inv fileName st m h)

theorem agg_inv_empty : AggInv ⟨[], [], []⟩ :=
  ⟨by simp, by simp, by simp, by simp, by simp, by simp, rfl⟩

theorem refold_sum_acc {α : Type} (key : α → String) (f : α → Nat) :
    ∀ (vs : List α) (acc : List (String × α)),
      (∀ a ∈ vs, aget (key a) acc = none) → (vs.map key).Nodup →
      sumBy f (vs.foldl (fun m a => aset (key a) a m) acc)
        = sumBy f acc + (vs.map f).sum := by
  intro vs
  induction vs with
  | nil =>
      intro acc _ _
      simp
  | cons a vs ih =>
      intro acc hacc hnd
      rw [List.foldl_cons]
      have ha : aget (key a) acc = none := hacc a (List.mem_cons_self a vs)
      have hacc' : ∀ b ∈ vs, aget (key b) (aset (key a) a acc) = none := by
        intro b hb
        have hkb : key a ≠ key b := by
          rcases List.nodup_cons.mp hnd with ⟨hna, _⟩
          intro hc
          exact hna (hc ▸ List.mem_map_of_mem key hb)
        rw [aget_aset_ne _ _ _ _ hkb]
        exact hacc b (List.mem_cons_of_mem a hb)
      rw [ih (aset (key a) a acc) hacc' (List.nodup_cons.mp hnd).2]
      rw [aset_absent _ _ _ ha, sumBy_append]
      simp [sumBy]
      omega

theorem refoldBy_sum {α : Type} (key : α → String) (f : α → Nat)
    (vs : List α) (hnd : (vs.map key).Nodup) :
    sumBy f (refoldBy key vs) = (vs.map f).sum := by
  unfold refoldBy
  rw [refold_sum_acc key f vs [] (fun a _ => rfl) hnd]
  simp [sumBy]

theorem addLineCounts_keys (cs : List (String × IGitCommit)) :
    ∀ as : List (String × IGitAuthor),
      (GitProvider.addLineCounts cs as).map (fun e => e.1)
        = as.map (fun e => e.1) := by
  induction cs with
  | nil => intro as; rfl
  | cons c cs ih =>
      intro as
      show (GitProvider.addLineCounts cs (aupdate c.2.author _ as)).map _ = _
      rw [ih, aupdate_keys]

theorem addLineCounts_name (cs : List (String × IGitCommit)) :
    ∀ as : List (String × IGitAuthor), (∀ e ∈ as, e.2.name = e.1) →
      ∀ e ∈ GitProvider.addLineCounts cs as, e.2.name = e.1 := by
  induction cs with
  | nil => exact fun as h => h
  | cons c cs ih =>
      intro as h
      exact ih _ (aupdate_forall _ _ _ _ h (fun a b hb => hb))

theorem addLineCounts_sum (cs : List (String × IGitCommit)) :
    ∀ as : List (String × IGitAuthor),
      (∀ e ∈ cs, aget e.2.author as ≠ none) →
      sumBy (fun a => a.lineCount) (GitProvider.addLineCounts cs as)
        = sumBy (fun a => a.lineCount) as
          + sumBy (fun c => c.lines.length) cs := by
  induction cs with
  | nil =>
      intro as _
      simp [GitProvider.addLineCounts, sumBy]
  | cons c cs ih =>
      intro as hpres
      have h1 : aget c.2.author as ≠ none :=
        hpres c (List.mem_cons_self c cs)
      have hpres' : ∀ e ∈ cs,
          aget e.2.author (aupdate c.2.author
            (fun a => { a with lineCount := a.lineCount + c.2.lines.length })
            as) ≠ none := by
        intro e he
        exact aget_aupdate_ne_none _ _ _ _ (hpres e (List.mem_cons_of_mem c he))
      show sumBy _ (GitProvider.addLineCounts cs (aupdate c.2.author _ as)) = _
      rw [ih _ hpres',
        sumBy_aupdate _ _ _ _ c.2.lines.length h1 (fun v => rfl)]
      show _ = _ + sumBy (fun c => c.lines.length) (c :: cs)
      simp [sumBy]
      omega

theorem finalize_sums (getTime : String → Int) (st : AggSt) (h : AggInv st) :
    sumBy (fun a => a.lineCount) (GitProvider.finalize getTime st).authors
      = (GitProvider.finalize getTime st).lines.length ∧
    (GitProvider.finalize getTime st).lines.length
      = sumBy (fun c => c.lines.length)
          (GitProvider.finalize getTime st).commits := by
  obtain ⟨anodup, cnodup, aname, azero, csha, cauthor, slines⟩ := h
  have hlines : (GitProvider.finalize getTime st).lines = st.lines := rfl
  constructor
  · have hA1name := addLineCounts_name st.commits st.authors aname
    have hA1keys := addLineCounts_keys st.commits st.authors
    have hperm := List.mergeSort_perm
      (avals (GitProvider.addLineCounts st.commits st.authors)) byLineCountDesc
    have hvalnames :
        (avals (GitProvider.addLineCounts st.commits st.authors)).map
            (fun a => a.name)
          = (GitProvider.addLineCounts st.commits st.authors).map
              (fun e => e.1) := by
      rw [avals, List.map_map]
      exact List.map_congr_left (fun e he => hA1name e he)
    have hndval :
        ((avals (GitProvider.addLineCounts st.commits st.authors)).map
          (fun a => a.name)).Nodup := by
      rw [hvalnames, hA1keys]
      exact anodup
    have hnd2 :
        (((avals (GitProvider.addLineCounts st.commits st.authors)).mergeSort
          byLineCountDesc).map (fun a => a.name)).Nodup :=
      (hperm.symm.map (fun a : IGitAuthor => a.name)).nodup hndval
    show sumBy _ (refoldBy (fun a : IGitAuthor => a.name) _) = _
    rw [refoldBy_sum _ _ _ hnd2, (hperm.map (fun a => a.lineCount)).sum_eq]
    have : ((avals (GitProvider.addLineCounts st.commits st.authors)).map
        (fun a => a.lineCount)).sum
          = sumBy (fun a => a.lineCount)
              (GitProvider.addLineCounts st.commits st.authors) := by
      rw [sumBy, avals, List.map_map]
      rfl
    rw [this, addLineCounts_sum st.commits st.authors cauthor,
      sumBy_zero _ _ azero, hlines, slines]
    omega
  · have hvalshas : (avals st.commits).map (fun c => c.sha)
        = st.commits.map (fun e => e.1) := by
      rw [avals, List.map_map]
      exact List.map_congr_left (fun e he => csha e he)
    have hperm := List.mergeSort_perm (avals st.commits)
      (fun a b => decide (getTime b.date ≤ getTime a.date))
    have hnd2 : (((avals st.commits).mergeSort
        (fun a b => decide (getTime b.date ≤ getTime a.date))).map
          (fun c => c.sha)).Nodup :=
      (hperm.symm.map (fun c : IGitCommit => c.sha)).nodup
        (by rw [hvalshas]; exact cnodup)
    show _ = sumBy _ (refoldBy (fun c : IGitCommit => c.sha) _)
    rw [refoldBy_sum _ _ _ hnd2, (hperm.map (fun c => c.lines.length)).sum_eq,
      hlines, slines]
    rw [sumBy, avals, List.map_map]
    rfl

/-- C3: for every raw attribution input text (and target file name and
external date-parsing function), the model built by the pipeline
satisfies `sum over authors of lineCount = length of lines = sum over
commits of lines.length`. -/
theorem C3_linecount_sums (getTime : String → Int) (fileName data : String) :
    sumBy (fun a => a.lineCount)
        (GitProvider.buildBlame getTime fileName data).authors
      = (GitProvider.buildBlame getTime fileName data).lines.length ∧
    (GitProvider.buildBlame getTime fileName data).lines.length
      = sumBy (fun c => c.lines.length)
          (GitProvider.buildBlame getTime fileName data).commits :=
  finalize_sums getTime _
    (agg_fold_inv fileName (parseBlameRecords data) ⟨[], [], []⟩ agg_inv_empty)
